import Mathlib

/-!
# Verification of the e-commerce data-preparation pipeline (`src/app.py`)

Shallow embedding of the data-preparation pipeline of the dashboard
application: defensive CSV ingestion (`safe_read_csv`), multi-format
timestamp parsing (`to_datetime_safe`), schema stabilisation
(`ensure_col`) and the enrichment join with derived columns
(`load_data`).

Modelling conventions:
* a pandas `DataFrame` cell that may be missing (`NaN` / `NaT`) is an
  `Option` value; a whole column that may be absent is dealt with by the
  pipeline-level branches that mirror the `"col" in df.columns` checks;
* datetimes are integers (epoch seconds); numeric cells are rationals;
* `pd.read_csv` is an external effect, so the loader is modelled as a
  function of the read's outcome (`Except`), mirroring the
  `try/except` structure of the source;
* `pd.to_datetime(series, format=fmt, errors="coerce")` applied to one
  cell is an external parsing primitive, so the timestamp normaliser is
  parametrised by a cell-level parse function; the control flow of
  `to_datetime_safe` (the format loop, the `notna().any()` test, the
  generic fallback and the empty-series short-circuit) is embedded
  faithfully.
-/

namespace App

/-! ## Table Loader (`safe_read_csv`, src/app.py lines 13-20) -/

/-- A generic tabular value: named columns, each a list of cells.
Used by the components (`safe_read_csv`, `ensure_col`) that operate on
whole frames without caring about a fixed schema. -/
structure Table (α : Type) where
  nrows : Nat
  cols : List (String × List α)
deriving DecidableEq, Repr

/-- `pd.DataFrame()`: the empty frame, zero rows and no columns. -/
def Table.empty {α : Type} : Table α := ⟨0, []⟩

/-- The two `except` arms of `safe_read_csv`:
`FileNotFoundError` and any other exception. -/
inductive ReadError : Type
  | fileNotFound : ReadError
  | otherError : ReadError
deriving DecidableEq, Repr

/-- `safe_read_csv` (src/app.py lines 13-20): `pd.read_csv` either
returns a frame or raises; both `except` arms return `pd.DataFrame()`. -/
def safe_read_csv {α : Type} (result : Except ReadError (Table α)) : Table α :=
  match result with
  | .ok df => df
  | .error .fileNotFound => Table.empty
  | .error .otherError => Table.empty

/-! ## Column Guarantor (`ensure_col`, src/app.py lines 42-45) -/

/-- The column names of a table (`df.columns`). -/
def Table.colNames {α : Type} (df : Table α) : List String :=
  df.cols.map Prod.fst

/-- `ensure_col` (src/app.py lines 42-45): `if col not in df.columns:
df[col] = default`.  Assigning a scalar to a new column broadcasts the
default to every row. -/
def ensure_col {α : Type} (df : Table α) (col : String) (default : α) : Table α :=
  if col ∈ df.colNames then df
  else { df with cols := df.cols ++ [(col, List.replicate df.nrows default)] }

/-! ## Timestamp Normalizer (`to_datetime_safe`, src/app.py lines 22-40) -/

/-- The `for fmt in formats` loop of `to_datetime_safe`: parse the whole
series with each candidate format in turn; return the first result in
which at least one value parsed (`parsed.notna().any()`); if no format
parses anything, fall back to the unconstrained generic parse
(`pd.to_datetime(series, errors="coerce")`). -/
def tryFormats {φ σ τ : Type} (parse : φ → σ → Option τ) (generic : σ → Option τ)
    (series : List σ) : List φ → List (Option τ)
  | [] => series.map generic
  | fmt :: rest =>
    let parsed := series.map (parse fmt)
    if parsed.any Option.isSome then parsed else tryFormats parse generic series rest

/-- `to_datetime_safe` (src/app.py lines 22-40): an empty series returns
an empty datetime series before any format is tried; otherwise run the
format loop. -/
def to_datetime_safe {φ σ τ : Type} (parse : φ → σ → Option τ) (generic : σ → Option τ)
    (series : List σ) (formats : List φ) : List (Option τ) :=
  if series.isEmpty then [] else tryFormats parse generic series formats

/-! ## Row types of the six entity tables (spec schema, src/app.py lines 53-94)

The enrichment pipeline consumes the frames after the per-table
preparation steps of `load_data`: timestamp columns have been parsed by
`to_datetime_safe` (hence `Option Int`, epoch seconds, `none` = `NaT`),
`ensure_col` has supplied the key/textual columns, and raw numeric cells
are `Option ℚ` (`none` = a value `pd.to_numeric(..., errors="coerce")`
cannot resolve). -/

/-- A row of `dim_order.csv` after timestamp parsing (lines 66-74). -/
structure OrderRow where
  order_id : String
  customer_id : String
  order_status : String
  order_purchase_timestamp : Option Int
  order_approved_at : Option Int
  order_delivered_carrier_date : Option Int
  order_delivered_customer_date : Option Int
  order_estimated_delivery_date : Option Int
deriving DecidableEq, Repr

/-- A row of `fact_order_lifecycle.csv` after timestamp parsing (line 78). -/
structure LifecycleRow where
  order_id : String
  event_timestamp : Option Int
  event_type : Option String
deriving DecidableEq, Repr

/-- A row of `dim_customer.csv`. -/
structure CustomerRow where
  customer_id : String
  customer_city : Option String
  customer_state : Option String
deriving DecidableEq, Repr

/-- A row of `dim_payments.csv` before the numeric coercion of line 94:
`payment_installments` is the raw cell, `none` when unparseable. -/
structure PaymentRow where
  order_id : String
  payment_type : Option String
  payment_installments : Option ℚ
  payment_value : Option ℚ
deriving DecidableEq, Repr

/-- A payment row after line 94,
`pd.to_numeric(..., errors="coerce").fillna(0)`:
`payment_installments` is now a plain numeric. -/
structure PaymentRowN where
  order_id : String
  payment_type : Option String
  payment_installments : ℚ
  payment_value : Option ℚ
deriving DecidableEq, Repr

/-- Line 94 on one row: coerce `payment_installments` to numeric,
unresolvable values become `NaN` and then `0` via `fillna(0)`. -/
def normPayment (p : PaymentRow) : PaymentRowN :=
  { order_id := p.order_id
    payment_type := p.payment_type
    payment_installments := p.payment_installments.getD 0
    payment_value := p.payment_value }

/-- Line 94: the numeric coercion applied to the whole column. -/
def normalizePayments (ps : List PaymentRow) : List PaymentRowN :=
  ps.map normPayment

/-- One row of the lifecycle aggregate produced by the
`groupby("order_id").agg(...)` of lines 103-106. -/
structure AggRow where
  order_id : String
  event_timestamp : Option Int
  event_type : Option String
deriving DecidableEq, Repr

/-! ### Sort orders used by `sort_values`

`DataFrame.sort_values` is a stable sort with missing values placed
last (`na_position="last"`); it is modelled by Mathlib's stable
`List.insertionSort` under the corresponding non-strict relation. -/

/-- Comparison of datetime cells with `NaT` sorted last. -/
def tsLe : Option Int → Option Int → Prop
  | _, none => True
  | none, some _ => False
  | some s, some t => s ≤ t

instance : DecidableRel tsLe := fun a b =>
  match a, b with
  | none, none => isTrue trivial
  | some _, none => isTrue trivial
  | none, some _ => isFalse id
  | some s, some t => inferInstanceAs (Decidable (s ≤ t))

/-- The key of `df_lifecycle.sort_values(["order_id", "event_timestamp"])`
(line 102): lexicographic on order id then timestamp. -/
def lifecycleLe (a b : LifecycleRow) : Prop :=
  a.order_id < b.order_id ∨
    (a.order_id = b.order_id ∧ tsLe a.event_timestamp b.event_timestamp)

instance : DecidableRel lifecycleLe := fun a b =>
  inferInstanceAs (Decidable (a.order_id < b.order_id ∨
    (a.order_id = b.order_id ∧ tsLe a.event_timestamp b.event_timestamp)))

/-- The key of `df_payments.sort_values("payment_installments")`
(line 116), on the numerically coerced installment column. -/
def payLe (a b : PaymentRowN) : Prop :=
  a.payment_installments ≤ b.payment_installments

instance : DecidableRel payLe := fun a b =>
  inferInstanceAs (Decidable (a.payment_installments ≤ b.payment_installments))

/-! ### `drop_duplicates` and the groupby aggregate -/

/-- `drop_duplicates(subset=key)`: keep the first row bearing each key,
in input order.  `seen` accumulates the keys already kept. -/
def dropDupFirstAux {α : Type} (key : α → String) (seen : List String) :
    List α → List α
  | [] => []
  | a :: rest =>
    if key a ∈ seen then dropDupFirstAux key seen rest
    else a :: dropDupFirstAux key (key a :: seen) rest

/-- `df.drop_duplicates(keyColumn)`. -/
def dropDupFirst {α : Type} (key : α → String) (l : List α) : List α :=
  dropDupFirstAux key [] l

/-- The `("event_timestamp", "max")` aggregate of line 104: pandas `max`
skips missing values, and is missing when every value is missing. -/
def tsMax (l : List (Option Int)) : Option Int :=
  (l.filterMap id).max?

/-- The `event_type` aggregate of line 105:
`x.dropna().iloc[-1] if len(x.dropna()) > 0 else np.nan` —
the last non-missing value, in the order rows appear in the group. -/
def lastSome (l : List (Option String)) : Option String :=
  (l.filterMap id).getLast?

/-- Lines 102-106: stable-sort the lifecycle frame by
`["order_id", "event_timestamp"]`, group by `order_id` (groups are the
contiguous runs of the sorted frame, keys emitted in sorted order), and
aggregate each group. -/
def lifecycleAgg (lifecycle : List LifecycleRow) : List AggRow :=
  let sorted := List.insertionSort lifecycleLe lifecycle
  let keys := (sorted.map (·.order_id)).dedup
  keys.map fun o =>
    let grp := sorted.filter fun e => e.order_id == o
    { order_id := o
      event_timestamp := tsMax (grp.map (·.event_timestamp))
      event_type := lastSome (grp.map (·.event_type)) }

/-- Line 116: `df_payments.sort_values("payment_installments")`
(stable, on the coerced column) then `.drop_duplicates("order_id")`
(first row per order id wins). -/
def paymentsSmall (ps : List PaymentRow) : List PaymentRowN :=
  dropDupFirst (·.order_id) (List.insertionSort payLe (normalizePayments ps))

/-! ### Calendar arithmetic for `.dt.to_period("M").astype(str)` -/

/-- Civil-calendar date of a day count relative to 1970-01-01
(proleptic Gregorian), returning `(year, month)`. -/
def yearMonthOfDays (z : Int) : Int × Int :=
  let z := z + 719468
  let era := (if 0 ≤ z then z else z - 146096) / 146097
  let doe := z - era * 146097
  let yoe := (doe - doe / 1460 + doe / 36524 - doe / 146096) / 365
  let y := yoe + era * 400
  let doy := doe - (365 * yoe + yoe / 4 - yoe / 100)
  let mp := (5 * doy + 2) / 153
  let m := mp + (if mp < 10 then 3 else -9)
  (y + (if m ≤ 2 then 1 else 0), m)

/-- `str(Period)` of a month period: `"YYYY-MM"`, month zero-padded. -/
def yearMonthStr (t : Int) : String :=
  let ym := yearMonthOfDays (Int.fdiv t 86400)
  toString ym.1 ++ "-" ++ (if ym.2 < 10 then "0" else "") ++ toString ym.2

/-- `.dt.to_period("M").astype(str)` on one datetime cell (lines 128-130):
`astype(str)` stringifies every element, turning a missing datetime into
the literal string `"NaT"`, not a missing value. -/
def periodStr (t : Option Int) : String :=
  match t with
  | none => "NaT"
  | some t => yearMonthStr t

/-! ### The enriched frame -/

/-- A row of `df_enriched`: the order columns plus the columns added by
the three left merges and the derived columns.  Joined and derived
fields start out missing. -/
structure EnrichedRow where
  order_id : String
  customer_id : String
  order_status : String
  order_purchase_timestamp : Option Int
  order_approved_at : Option Int
  order_delivered_carrier_date : Option Int
  order_delivered_customer_date : Option Int
  order_estimated_delivery_date : Option Int
  event_timestamp : Option Int := none
  event_type : Option String := none
  customer_city : Option String := none
  customer_state : Option String := none
  payment_type : Option String := none
  payment_installments : Option ℚ := none
  payment_value : Option ℚ := none
  month : Option String := none
  lifecycle_month : Option String := none
  processing_time_days : Option ℚ := none
deriving DecidableEq, Repr

/-- Line 97: `df_enriched = df_orders.copy()`. -/
def baseEnriched (o : OrderRow) : EnrichedRow :=
  { order_id := o.order_id
    customer_id := o.customer_id
    order_status := o.order_status
    order_purchase_timestamp := o.order_purchase_timestamp
    order_approved_at := o.order_approved_at
    order_delivered_carrier_date := o.order_delivered_carrier_date
    order_delivered_customer_date := o.order_delivered_customer_date
    order_estimated_delivery_date := o.order_estimated_delivery_date }

/-- `df.merge(right, on=key, how="left")`: each left row is paired with
every matching right row (in right order), and kept once with
missing-filled columns when no right row matches. -/
def leftMerge {ρ : Type} (rows : List EnrichedRow) (right : List ρ)
    (keyMatch : EnrichedRow → ρ → Bool) (fill : EnrichedRow → ρ → EnrichedRow) :
    List EnrichedRow :=
  rows.flatMap fun r =>
    if (right.filter (keyMatch r)).isEmpty then [r]
    else (right.filter (keyMatch r)).map (fill r)

/-- Lines 100-107: left-merge the lifecycle aggregate onto the enriched
frame by `order_id`; skipped (`if not df_lifecycle.empty ...`) when the
lifecycle frame is empty. -/
def enrichLifecycle (lifecycle : List LifecycleRow) (rows : List EnrichedRow) :
    List EnrichedRow :=
  if lifecycle = [] then rows
  else
    leftMerge rows (lifecycleAgg lifecycle)
      (fun r a => r.order_id == a.order_id)
      (fun r a => { r with event_timestamp := a.event_timestamp
                           event_type := a.event_type })

/-- Lines 110-112: left-merge the de-duplicated customer attributes by
`customer_id`; skipped when the customer frame is empty. -/
def enrichCustomers (customers : List CustomerRow) (rows : List EnrichedRow) :
    List EnrichedRow :=
  if customers = [] then rows
  else
    leftMerge rows (dropDupFirst (·.customer_id) customers)
      (fun r c => r.customer_id == c.customer_id)
      (fun r c => { r with customer_city := c.customer_city
                           customer_state := c.customer_state })

/-- Lines 114-119: left-merge the one-row-per-order payment selection by
`order_id`; skipped when the payment frame is empty. -/
def enrichPayments (payments : List PaymentRow) (rows : List EnrichedRow) :
    List EnrichedRow :=
  if payments = [] then rows
  else
    leftMerge rows (paymentsSmall payments)
      (fun r p => r.order_id == p.order_id)
      (fun r p => { r with payment_type := p.payment_type
                           payment_installments := some p.payment_installments
                           payment_value := p.payment_value })

/-- Lines 121-125: coerce `payment_value` to numeric with missing values
defaulted to `100.0`; when the column is absent (no payment merge ran)
the whole column is set to `100.0`. -/
def fillPaymentValue (payments : List PaymentRow) (rows : List EnrichedRow) :
    List EnrichedRow :=
  if payments = [] then rows.map fun r => { r with payment_value := some 100 }
  else rows.map fun r => { r with payment_value := some (r.payment_value.getD 100) }

/-- Lines 127-132: derive the `month` and `lifecycle_month` display
strings.  `order_purchase_timestamp` is always a column of the enriched
frame; `event_timestamp` is a column exactly when the lifecycle merge
ran, and `lifecycle_month` is set to missing otherwise. -/
def addMonths (lifecycle : List LifecycleRow) (rows : List EnrichedRow) :
    List EnrichedRow :=
  let withMonth := rows.map fun r =>
    { r with month := some (periodStr r.order_purchase_timestamp) }
  if lifecycle = [] then withMonth.map fun r => { r with lifecycle_month := none }
  else withMonth.map fun r => { r with lifecycle_month := some (periodStr r.event_timestamp) }

/-- Lines 134-140: set `processing_time_days` on exactly the rows where
both the delivery-to-customer and the purchase timestamps are present:
`total_seconds() / (24 * 3600)`. -/
def addProcessingTime (rows : List EnrichedRow) : List EnrichedRow :=
  rows.map fun r =>
    match r.order_delivered_customer_date, r.order_purchase_timestamp with
    | some d, some p =>
      { r with processing_time_days := some (((d : ℚ) - (p : ℚ)) / 86400) }
    | _, _ => r

/-- The enrichment pipeline of `load_data` (src/app.py lines 96-140), on
tables conforming to the spec §3 schemas.  The emptiness branches of the
stages mirror the source's guards: under the fixed schemas,
`"event_timestamp" in df_enriched.columns` holds exactly when the
lifecycle merge ran, and `"payment_value" in df_enriched.columns`
exactly when the payment merge ran. -/
def enrich (orders : List OrderRow) (lifecycle : List LifecycleRow)
    (customers : List CustomerRow) (payments : List PaymentRow) :
    List EnrichedRow :=
  addProcessingTime (addMonths lifecycle (fillPaymentValue payments
    (enrichPayments payments (enrichCustomers customers
      (enrichLifecycle lifecycle (orders.map baseEnriched))))))

/-- Helper for `argminFirst`: the first element of `a :: l` attaining
the minimal value of `f` (on a tie the earlier element wins). -/
def argminFirstNe {α : Type} (f : α → ℚ) (a : α) : List α → α
  | [] => a
  | b :: l =>
    let m := argminFirstNe f b l
    if f a ≤ f m then a else m

/-- Specification-side description of a stable minimum selection: the
first element of the list attaining the minimal value of `f`.  Used to
state which row the payment de-duplication of lines 114-119 must keep. -/
def argminFirst {α : Type} (f : α → ℚ) : List α → Option α
  | [] => none
  | a :: l => some (argminFirstNe f a l)

/-! ## Order-theoretic facts about the sort keys -/

theorem tsLe_refl : ∀ a : Option Int, tsLe a a
  | none => trivial
  | some s => le_refl s

theorem tsLe_total : ∀ a b : Option Int, tsLe a b ∨ tsLe b a
  | none, none => Or.inl trivial
  | some _, none => Or.inl trivial
  | none, some _ => Or.inr trivial
  | some s, some t => by
    rcases le_total s t with h | h
    · exact Or.inl h
    · exact Or.inr h

theorem tsLe_trans : ∀ {a b c : Option Int}, tsLe a b → tsLe b c → tsLe a c := by
  intro a b c h₁ h₂
  cases a <;> cases b <;> cases c <;> simp_all [tsLe]
  omega

instance : IsTotal LifecycleRow lifecycleLe := by
  constructor
  intro a b
  rcases lt_trichotomy a.order_id b.order_id with h | h | h
  · exact Or.inl (Or.inl h)
  · rcases tsLe_total a.event_timestamp b.event_timestamp with ht | ht
    · exact Or.inl (Or.inr ⟨h, ht⟩)
    · exact Or.inr (Or.inr ⟨h.symm, ht⟩)
  · exact Or.inr (Or.inl h)

instance : IsTrans LifecycleRow lifecycleLe := by
  constructor
  intro a b c h₁ h₂
  rcases h₁ with h₁ | ⟨e₁, t₁⟩ <;> rcases h₂ with h₂ | ⟨e₂, t₂⟩
  · exact Or.inl (h₁.trans h₂)
  · exact Or.inl (e₂ ▸ h₁)
  · exact Or.inl (e₁ ▸ h₂)
  · exact Or.inr ⟨e₁.trans e₂, tsLe_trans t₁ t₂⟩

instance : IsTotal PaymentRowN payLe :=
  ⟨fun a b => le_total a.payment_installments b.payment_installments⟩

instance : IsTrans PaymentRowN payLe := ⟨fun _ _ _ h₁ h₂ => le_trans h₁ h₂⟩

/-! ## List-level helper lemmas -/

theorem argminFirstNe_mem {α : Type} (f : α → ℚ) :
    ∀ (l : List α) (a : α), argminFirstNe f a l ∈ a :: l := by
  intro l
  induction l with
  | nil => intro a; simp [argminFirstNe]
  | cons b l ih =>
    intro a
    simp only [argminFirstNe]
    by_cases hf : f a ≤ f (argminFirstNe f b l)
    · rw [if_pos hf]; exact List.mem_cons_self a (b :: l)
    · rw [if_neg hf]; exact List.mem_cons_of_mem a (ih b)

theorem argminFirst_mem {α : Type} (f : α → ℚ) {l : List α} {b : α}
    (h : argminFirst f l = some b) : b ∈ l := by
  cases l with
  | nil => simp [argminFirst] at h
  | cons a l =>
    simp only [argminFirst, Option.some.injEq] at h
    exact h ▸ argminFirstNe_mem f l a

theorem argminFirstNe_of_lt {α : Type} (f : α → ℚ) :
    ∀ (l : List α) (a : α), (∀ b ∈ l, f a < f b) → argminFirstNe f a l = a := by
  intro l
  induction l with
  | nil => intro a _; rfl
  | cons b l ih =>
    intro a h
    have hm : argminFirstNe f b l ∈ b :: l := argminFirstNe_mem f l b
    simp only [argminFirstNe]
    rw [if_pos (le_of_lt (h _ hm))]

theorem argminFirstNe_mid_of_lt {α : Type} (f : α → ℚ) :
    ∀ (l₁ : List α) (c a : α) {l₂ : List α}, f a < f c →
      (∀ b ∈ l₁, f a < f b) → (∀ b ∈ l₂, f a < f b) →
      argminFirstNe f c (l₁ ++ a :: l₂) = a := by
  intro l₁
  induction l₁ with
  | nil =>
    intro c a l₂ hc _ h₂
    simp only [List.nil_append, argminFirstNe]
    rw [argminFirstNe_of_lt f l₂ a h₂]
    rw [if_neg (not_le_of_lt hc)]
  | cons d l₁ ih =>
    intro c a l₂ hc h₁ h₂
    simp only [List.cons_append, argminFirstNe, List.append_eq]
    rw [ih d a (h₁ d (List.mem_cons_self d l₁))
      (fun b hb => h₁ b (List.mem_cons_of_mem d hb)) h₂]
    rw [if_neg (not_le_of_lt hc)]

theorem argminFirst_append_cons {α : Type} (f : α → ℚ) (a : α) :
    ∀ (l₁ : List α) {l₂ : List α}, (∀ b ∈ l₁, f a < f b) → (∀ b ∈ l₂, f a < f b) →
      argminFirst f (l₁ ++ a :: l₂) = some a := by
  intro l₁ l₂ h₁ h₂
  cases l₁ with
  | nil =>
    simp only [List.nil_append, argminFirst, Option.some.injEq]
    exact argminFirstNe_of_lt f l₂ a h₂
  | cons c l₁ =>
    simp only [List.cons_append, argminFirst, Option.some.injEq]
    exact argminFirstNe_mid_of_lt f l₁ c a (h₁ c (List.mem_cons_self c l₁))
      (fun b hb => h₁ b (List.mem_cons_of_mem c hb)) h₂

theorem argminFirstNe_map {α β : Type} (g : α → β) (f : β → ℚ) :
    ∀ (l : List α) (a : α),
      argminFirstNe f (g a) (l.map g) = g (argminFirstNe (fun x => f (g x)) a l) := by
  intro l
  induction l with
  | nil => intro a; rfl
  | cons b l ih =>
    intro a
    simp only [List.map_cons, argminFirstNe, ih b]
    by_cases hf : f (g a) ≤ f (g (argminFirstNe (fun x => f (g x)) b l))
    · rw [if_pos hf, if_pos hf]
    · rw [if_neg hf, if_neg hf]

theorem argminFirst_map {α β : Type} (g : α → β) (f : β → ℚ) :
    ∀ l : List α, argminFirst f (l.map g) = (argminFirst (fun a => f (g a)) l).map g := by
  intro l
  cases l with
  | nil => rfl
  | cons a l =>
    simp only [List.map_cons, argminFirst, Option.map_some]
    exact congrArg some (argminFirstNe_map g f l a)

theorem argminFirst_eq_none {α : Type} (f : α → ℚ) {l : List α} :
    argminFirst f l = none ↔ l = [] := by
  cases l <;> simp [argminFirst]

theorem argminFirstNe_of_argminFirst {α : Type} (f : α → ℚ) {l : List α} {b : α}
    (h : argminFirst f l = some b) (a : α) :
    argminFirstNe f a l = if f a ≤ f b then a else b := by
  cases l with
  | nil => simp [argminFirst] at h
  | cons c l =>
    simp only [argminFirst, Option.some.injEq] at h
    simp only [argminFirstNe, h]

theorem dropDupFirstAux_sub {α : Type} (key : α → String) :
    ∀ (l : List α) (seen : List String) {x : α}, x ∈ dropDupFirstAux key seen l → x ∈ l := by
  intro l
  induction l with
  | nil => intro seen x h; exact absurd h (List.not_mem_nil _)
  | cons a rest ih =>
    intro seen x h
    simp only [dropDupFirstAux] at h
    by_cases hm : key a ∈ seen
    · rw [if_pos hm] at h
      exact List.mem_cons_of_mem a (ih seen h)
    · rw [if_neg hm] at h
      rcases List.mem_cons.1 h with h | h
      · exact h ▸ List.mem_cons_self a rest
      · exact List.mem_cons_of_mem a (ih _ h)

theorem dropDupFirstAux_filter {α : Type} (key : α → String) (k : String) :
    ∀ (l : List α) (seen : List String),
      (dropDupFirstAux key seen l).filter (fun a => key a == k)
        = if k ∈ seen then [] else (l.filter (fun a => key a == k)).take 1 := by
  intro l
  induction l with
  | nil => intro seen; by_cases hk : k ∈ seen <;> simp [dropDupFirstAux, hk]
  | cons a rest ih =>
    intro seen
    simp only [dropDupFirstAux]
    by_cases hm : key a ∈ seen
    · rw [if_pos hm, ih seen]
      by_cases hk : key a = k
      · have hm' : k ∈ seen := hk ▸ hm
        simp [hm']
      · rw [List.filter_cons_of_neg (by simp [hk])]
    · rw [if_neg hm]
      by_cases hk : key a = k
      · subst hk
        rw [List.filter_cons_of_pos (by simp), ih (key a :: seen),
          if_pos (List.mem_cons_self (key a) seen), if_neg hm,
          List.filter_cons_of_pos (by simp)]
        rfl
      · rw [List.filter_cons_of_neg (by simp [hk]), ih (key a :: seen),
          List.filter_cons_of_neg (by simp [hk])]
        by_cases hks : k ∈ seen
        · have : k ∈ key a :: seen := List.mem_cons_of_mem _ hks
          simp [hks, this]
        · have : k ∉ key a :: seen := by
            intro hc
            rcases List.mem_cons.1 hc with h | h
            · exact hk h.symm
            · exact hks h
          simp [hks, this]

theorem dropDupFirstAux_keys {α : Type} (key : α → String) :
    ∀ (l : List α) (seen : List String),
      ((dropDupFirstAux key seen l).map key).Nodup ∧
        ∀ k ∈ (dropDupFirstAux key seen l).map key, k ∉ seen := by
  intro l
  induction l with
  | nil => intro seen; exact ⟨by simp [dropDupFirstAux], by simp [dropDupFirstAux]⟩
  | cons a rest ih =>
    intro seen
    simp only [dropDupFirstAux]
    by_cases hm : key a ∈ seen
    · rw [if_pos hm]; exact ih seen
    · rw [if_neg hm]
      obtain ⟨hnd, hseen⟩ := ih (key a :: seen)
      constructor
      · simp only [List.map_cons]
        refine List.Nodup.cons ?_ hnd
        intro hmem
        exact hseen (key a) hmem (List.mem_cons_self (key a) seen)
      · simp only [List.map_cons]
        intro k hk
        rcases List.mem_cons.1 hk with hk | hk
        · exact hk ▸ hm
        · intro hks
          exact hseen k hk (List.mem_cons_of_mem (key a) hks)

theorem filter_take_one_of_find? {α : Type} (p : α → Bool) :
    ∀ {l : List α} {x : α}, l.find? p = some x → (l.filter p).take 1 = [x] := by
  intro l
  induction l with
  | nil => intro x h; simp at h
  | cons a l ih =>
    intro x h
    by_cases hp : p a
    · rw [List.find?_cons_of_pos _ hp] at h
      cases h
      rw [List.filter_cons_of_pos hp]
      rfl
    · rw [List.find?_cons_of_neg _ hp] at h
      rw [List.filter_cons_of_neg hp]
      exact ih h

theorem orderedInsert_find?_none {α : Type} (r : α → α → Prop) [DecidableRel r]
    (p : α → Bool) (a : α) :
    ∀ (s : List α), s.find? p = none →
      (List.orderedInsert r a s).find? p = if p a then some a else none := by
  intro s
  induction s with
  | nil =>
    intro _
    by_cases hp : p a <;> simp [List.orderedInsert, hp]
  | cons b s ih =>
    intro hn
    have hb : ¬ p b := List.find?_eq_none.1 hn b (List.mem_cons_self b s)
    have hs' : s.find? p = none :=
      List.find?_eq_none.2 fun x hx => List.find?_eq_none.1 hn x (List.mem_cons_of_mem b hx)
    simp only [List.orderedInsert]
    by_cases hab : r a b
    · rw [if_pos hab]
      by_cases hp : p a
      · rw [List.find?_cons_of_pos _ hp, if_pos hp]
      · rw [List.find?_cons_of_neg _ hp, List.find?_cons_of_neg _ hb, hs', if_neg hp]
    · rw [if_neg hab, List.find?_cons_of_neg _ hb, ih hs']

theorem orderedInsert_find?_some {α : Type} (r : α → α → Prop) [DecidableRel r]
    (f : α → ℚ) (hr : ∀ a b, r a b ↔ f a ≤ f b) (p : α → Bool) (a : α) :
    ∀ (s : List α) {b : α}, s.Pairwise r → s.find? p = some b →
      (List.orderedInsert r a s).find? p =
        if p a then (if f b < f a then some b else some a) else some b := by
  intro s
  induction s with
  | nil => intro b _ h; simp at h
  | cons c s ih =>
    intro b hs hf
    have hcs := List.pairwise_cons.1 hs
    simp only [List.orderedInsert]
    by_cases hac : r a c
    · rw [if_pos hac]
      have hfb : f a ≤ f b := by
        have hbmem : b ∈ c :: s := List.mem_of_find?_eq_some hf
        rcases List.mem_cons.1 hbmem with hbc | hbs
        · exact hbc ▸ (hr a c).1 hac
        · exact le_trans ((hr a c).1 hac) ((hr c b).1 (hcs.1 b hbs))
      by_cases hp : p a
      · rw [List.find?_cons_of_pos _ hp, if_pos hp, if_neg (not_lt.2 hfb)]
      · rw [List.find?_cons_of_neg _ hp, if_neg hp, hf]
    · rw [if_neg hac]
      by_cases hpc : p c
      · rw [List.find?_cons_of_pos _ hpc] at hf
        obtain rfl : c = b := Option.some.inj hf
        rw [List.find?_cons_of_pos _ hpc]
        have hca : f c < f a := lt_of_not_le fun hle => hac ((hr a c).2 hle)
        by_cases hp : p a
        · rw [if_pos hp, if_pos hca]
        · rw [if_neg hp]
      · rw [List.find?_cons_of_neg _ hpc] at hf
        rw [List.find?_cons_of_neg _ hpc]
        exact ih hcs.2 hf

theorem insertionSort_find?_eq_argminFirst {α : Type} (r : α → α → Prop) [DecidableRel r]
    (f : α → ℚ) (hr : ∀ a b, r a b ↔ f a ≤ f b) (p : α → Bool) :
    ∀ l : List α, (List.insertionSort r l).find? p = argminFirst f (l.filter p) := by
  haveI : IsTotal α r := ⟨fun a b => by rw [hr a b, hr b a]; exact le_total (f a) (f b)⟩
  haveI : IsTrans α r :=
    ⟨fun a b c hab hbc => (hr a c).2 (le_trans ((hr a b).1 hab) ((hr b c).1 hbc))⟩
  intro l
  induction l with
  | nil => rfl
  | cons a l ih =>
    simp only [List.insertionSort]
    have hsorted : (List.insertionSort r l).Pairwise r := List.sorted_insertionSort r l
    cases hfind : (List.insertionSort r l).find? p with
    | none =>
      rw [orderedInsert_find?_none r p a _ hfind]
      have hfl : argminFirst f (l.filter p) = none := ih.symm.trans hfind
      have hnil : l.filter p = [] := (argminFirst_eq_none f).1 hfl
      by_cases hp : p a
      · rw [if_pos hp, List.filter_cons_of_pos hp, hnil]
        rfl
      · rw [if_neg hp, List.filter_cons_of_neg hp]
        exact hfl.symm
    | some b =>
      rw [orderedInsert_find?_some r f hr p a _ hsorted hfind]
      have hb : argminFirst f (l.filter p) = some b := ih.symm.trans hfind
      by_cases hp : p a
      · rw [if_pos hp, List.filter_cons_of_pos hp]
        rw [show argminFirst f (a :: l.filter p) = some (argminFirstNe f a (l.filter p)) from rfl]
        rw [argminFirstNe_of_argminFirst f hb a]
        by_cases hab : f a ≤ f b
        · rw [if_pos hab, if_neg (not_lt.2 hab)]
        · rw [if_neg hab, if_pos (lt_of_not_le hab)]
      · rw [if_neg hp, List.filter_cons_of_neg hp, hb]

/-- The installment value the payment de-duplication orders by, as a
function of the raw row: the coerced value of line 94. -/
def instVal (p : PaymentRow) : ℚ := p.payment_installments.getD 0

theorem paymentsSmall_find?_spec (ps : List PaymentRow) (o : String) :
    (List.insertionSort payLe (normalizePayments ps)).find? (fun m => m.order_id == o)
      = (argminFirst instVal (ps.filter (fun p => p.order_id == o))).map normPayment := by
  rw [insertionSort_find?_eq_argminFirst payLe (fun m => m.payment_installments)
    (fun _ _ => Iff.rfl) (fun m => m.order_id == o) (normalizePayments ps)]
  rw [normalizePayments, List.filter_map, argminFirst_map]
  rfl

theorem paymentsSmall_filter_eq (ps : List PaymentRow) (o : String) {sel : PaymentRow}
    (hsel : argminFirst instVal (ps.filter (fun p => p.order_id == o)) = some sel) :
    (paymentsSmall ps).filter (fun m => m.order_id == o) = [normPayment sel] := by
  have hfind : (List.insertionSort payLe (normalizePayments ps)).find?
      (fun m => m.order_id == o) = some (normPayment sel) := by
    rw [paymentsSmall_find?_spec, hsel]
    rfl
  have htake := filter_take_one_of_find? (fun m : PaymentRowN => m.order_id == o) hfind
  rw [paymentsSmall, dropDupFirst,
    dropDupFirstAux_filter (fun m : PaymentRowN => m.order_id) o _ [],
    if_neg (List.not_mem_nil o)]
  exact htake

theorem paymentsSmall_keys_nodup (ps : List PaymentRow) :
    ((paymentsSmall ps).map (·.order_id)).Nodup :=
  (dropDupFirstAux_keys (·.order_id) (List.insertionSort payLe (normalizePayments ps)) []).1

theorem mem_paymentsSmall {ps : List PaymentRow} {m : PaymentRowN}
    (hm : m ∈ paymentsSmall ps) : ∃ p ∈ ps, normPayment p = m := by
  have hm' : m ∈ dropDupFirstAux (fun m : PaymentRowN => m.order_id) []
      (List.insertionSort payLe (normalizePayments ps)) := hm
  have h1 : m ∈ List.insertionSort payLe (normalizePayments ps) :=
    dropDupFirstAux_sub _ _ [] hm'
  have h2 : m ∈ normalizePayments ps := (List.mem_insertionSort payLe).1 h1
  simpa [normalizePayments] using h2

theorem dropDupFirst_keys_nodup {α : Type} (key : α → String) (l : List α) :
    ((dropDupFirst key l).map key).Nodup :=
  (dropDupFirstAux_keys key l []).1

theorem find?_map_of_mem_keys (g : String → AggRow) (hg : ∀ k, (g k).order_id = k) :
    ∀ (keys : List String) {o : String}, o ∈ keys →
      (keys.map g).find? (fun a => a.order_id == o) = some (g o) := by
  intro keys
  induction keys with
  | nil => intro o h; simp at h
  | cons k keys ih =>
    intro o ho
    simp only [List.map_cons]
    by_cases hk : k = o
    · subst hk
      rw [List.find?_cons_of_pos _ (by simp [hg])]
    · rw [List.find?_cons_of_neg _ (by simp [hg, hk])]
      refine ih ?_
      rcases List.mem_cons.1 ho with h | h
      · exact absurd h.symm hk
      · exact h

theorem lifecycleAgg_find? (lf : List LifecycleRow) (o : String)
    (ho : ∃ e ∈ lf, e.order_id = o) :
    (lifecycleAgg lf).find? (fun a => a.order_id == o) =
      some
        { order_id := o
          event_timestamp := tsMax (((List.insertionSort lifecycleLe lf).filter
            (fun e => e.order_id == o)).map (·.event_timestamp))
          event_type := lastSome (((List.insertionSort lifecycleLe lf).filter
            (fun e => e.order_id == o)).map (·.event_type)) } := by
  obtain ⟨e, he, heo⟩ := ho
  have hsortmem : e ∈ List.insertionSort lifecycleLe lf :=
    (List.mem_insertionSort lifecycleLe).2 he
  have hkey : o ∈ ((List.insertionSort lifecycleLe lf).map (·.order_id)).dedup :=
    List.mem_dedup.2 (List.mem_map.2 ⟨e, hsortmem, heo⟩)
  exact find?_map_of_mem_keys _ (fun _ => rfl) _ hkey

theorem lifecycleAgg_keys_nodup (lf : List LifecycleRow) :
    ((lifecycleAgg lf).map (·.order_id)).Nodup := by
  simp only [lifecycleAgg, List.map_map]
  have hcomp :
      ((fun a : AggRow => a.order_id) ∘ fun o =>
        ({ order_id := o
           event_timestamp := tsMax (((List.insertionSort lifecycleLe lf).filter
             (fun e => e.order_id == o)).map (·.event_timestamp))
           event_type := lastSome (((List.insertionSort lifecycleLe lf).filter
             (fun e => e.order_id == o)).map (·.event_type)) } : AggRow))
        = fun o => o := rfl
  rw [hcomp, List.map_id']
  exact List.nodup_dedup _

theorem lastSome_of_all_isSome :
    ∀ (l : List (Option String)), (∀ x ∈ l, x.isSome) → lastSome l = l.getLast?.join := by
  intro l
  induction l with
  | nil => intro _; rfl
  | cons a l ih =>
    intro h
    obtain ⟨v, rfl⟩ := Option.isSome_iff_exists.1 (h a (List.mem_cons_self a l))
    cases l with
    | nil => rfl
    | cons b l' =>
      obtain ⟨w, rfl⟩ :=
        Option.isSome_iff_exists.1 (h b (List.mem_cons_of_mem _ (List.mem_cons_self b l')))
      have hrest := ih fun x hx => h x (List.mem_cons_of_mem _ hx)
      simp only [lastSome, List.filterMap_cons_some, List.getLast?_cons_cons] at hrest ⊢
      exact hrest

theorem pairwise_rel_getLast? {α : Type} {R : α → α → Prop} :
    ∀ {l : List α} {m : α}, l.Pairwise R → l.getLast? = some m →
      ∀ e ∈ l, e = m ∨ R e m := by
  intro l
  induction l with
  | nil => intro m _ h; simp at h
  | cons a l ih =>
    intro m hp hm e he
    cases l with
    | nil =>
      have ham : a = m := by simpa using hm
      rcases List.mem_singleton.1 he with rfl
      exact Or.inl ham
    | cons b l' =>
      rw [List.getLast?_cons_cons] at hm
      rcases List.mem_cons.1 he with rfl | he'
      · right
        exact (List.pairwise_cons.1 hp).1 m (List.mem_of_getLast?_eq_some hm)
      · exact ih (List.pairwise_cons.1 hp).2 hm e he'

theorem mem_leftMerge_iff {ρ : Type} {rows : List EnrichedRow} {right : List ρ}
    {km : EnrichedRow → ρ → Bool} {fill : EnrichedRow → ρ → EnrichedRow} {x : EnrichedRow} :
    x ∈ leftMerge rows right km fill ↔
      ∃ r ∈ rows, (right.filter (km r) = [] ∧ x = r) ∨
        ∃ m ∈ right.filter (km r), fill r m = x := by
  simp only [leftMerge, List.mem_flatMap]
  refine exists_congr fun r => and_congr_right fun _ => ?_
  by_cases hf : right.filter (km r) = []
  · rw [if_pos (by simp [hf])]
    simp [hf]
  · rw [if_neg (by simp [hf])]
    simp [hf, List.mem_map]

theorem leftMerge_length {ρ : Type} (rows : List EnrichedRow) (right : List ρ)
    (km : EnrichedRow → ρ → Bool) (fill : EnrichedRow → ρ → EnrichedRow)
    (h : ∀ r, (right.filter (km r)).length ≤ 1) :
    (leftMerge rows right km fill).length = rows.length := by
  induction rows with
  | nil => rfl
  | cons r rows ih =>
    simp only [leftMerge, List.flatMap_cons, List.length_append] at ih ⊢
    rw [ih]
    by_cases hf : right.filter (km r) = []
    · rw [if_pos (by simp [hf])]
      simp only [List.length_cons, List.length_nil]
      omega
    · rw [if_neg (by simp [hf]), List.length_map]
      have h1 := h r
      have h2 : (right.filter (km r)).length ≠ 0 := by
        simpa [List.length_eq_zero] using hf
      simp only [List.length_cons]
      omega

/-! ## Stage-level lemmas about the enrichment pipeline -/

theorem length_filter_le_one {α : Type} (key : α → String) {l : List α}
    (h : (l.map key).Nodup) (k : String) :
    (l.filter (fun a => k == key a)).length ≤ 1 := by
  induction l with
  | nil => simp
  | cons a l ih =>
    simp only [List.map_cons, List.nodup_cons] at h
    rw [List.filter_cons]
    by_cases hk : (k == key a) = true
    · rw [if_pos hk]
      have hk' : k = key a := beq_iff_eq.1 hk
      have hnil : l.filter (fun b => k == key b) = [] := by
        rw [List.filter_eq_nil_iff]
        intro b hb hpb
        exact h.1 (hk' ▸ (beq_iff_eq.1 hpb) ▸ List.mem_map.2 ⟨b, hb, rfl⟩)
      rw [hnil]
      simp
    · rw [if_neg hk]
      exact ih h.2

theorem enrichLifecycle_length (lf : List LifecycleRow) (rows : List EnrichedRow) :
    (enrichLifecycle lf rows).length = rows.length := by
  rw [enrichLifecycle]
  by_cases h : lf = []
  · rw [if_pos h]
  · rw [if_neg h]
    exact leftMerge_length _ _ _ _ fun r =>
      length_filter_le_one (fun a : AggRow => a.order_id) (lifecycleAgg_keys_nodup lf) r.order_id

theorem enrichCustomers_length (cs : List CustomerRow) (rows : List EnrichedRow) :
    (enrichCustomers cs rows).length = rows.length := by
  rw [enrichCustomers]
  by_cases h : cs = []
  · rw [if_pos h]
  · rw [if_neg h]
    exact leftMerge_length _ _ _ _ fun r =>
      length_filter_le_one (fun c : CustomerRow => c.customer_id)
        (dropDupFirst_keys_nodup (fun c : CustomerRow => c.customer_id) cs) r.customer_id

theorem enrichPayments_length (ps : List PaymentRow) (rows : List EnrichedRow) :
    (enrichPayments ps rows).length = rows.length := by
  rw [enrichPayments]
  by_cases h : ps = []
  · rw [if_pos h]
  · rw [if_neg h]
    exact leftMerge_length _ _ _ _ fun r =>
      length_filter_le_one (fun m : PaymentRowN => m.order_id)
        (paymentsSmall_keys_nodup ps) r.order_id

theorem fillPaymentValue_length (ps : List PaymentRow) (rows : List EnrichedRow) :
    (fillPaymentValue ps rows).length = rows.length := by
  rw [fillPaymentValue]
  by_cases h : ps = []
  · rw [if_pos h, List.length_map]
  · rw [if_neg h, List.length_map]

theorem addMonths_length (lf : List LifecycleRow) (rows : List EnrichedRow) :
    (addMonths lf rows).length = rows.length := by
  rw [addMonths]
  by_cases h : lf = []
  · rw [if_pos h, List.length_map, List.length_map]
  · rw [if_neg h, List.length_map, List.length_map]

theorem addProcessingTime_length (rows : List EnrichedRow) :
    (addProcessingTime rows).length = rows.length := by
  rw [addProcessingTime, List.length_map]

/-! Projection-preserving membership decompositions, one per stage.
`g` is any view of a row that the stage's fill functions do not touch. -/

theorem mem_enrichLifecycle_proj {γ : Type} {lf : List LifecycleRow}
    {rows : List EnrichedRow} {x : EnrichedRow} (hx : x ∈ enrichLifecycle lf rows)
    (g : EnrichedRow → γ)
    (hg : ∀ (r : EnrichedRow) (a : AggRow),
      g { r with event_timestamp := a.event_timestamp, event_type := a.event_type } = g r) :
    ∃ r ∈ rows, g x = g r := by
  rw [enrichLifecycle] at hx
  by_cases h : lf = []
  · rw [if_pos h] at hx; exact ⟨x, hx, rfl⟩
  · rw [if_neg h] at hx
    obtain ⟨r, hr, hc⟩ := mem_leftMerge_iff.1 hx
    rcases hc with ⟨-, rfl⟩ | ⟨m, -, rfl⟩
    · exact ⟨x, hr, rfl⟩
    · exact ⟨r, hr, hg r m⟩

theorem mem_enrichCustomers_proj {γ : Type} {cs : List CustomerRow}
    {rows : List EnrichedRow} {x : EnrichedRow} (hx : x ∈ enrichCustomers cs rows)
    (g : EnrichedRow → γ)
    (hg : ∀ (r : EnrichedRow) (c : CustomerRow),
      g { r with customer_city := c.customer_city, customer_state := c.customer_state } = g r) :
    ∃ r ∈ rows, g x = g r := by
  rw [enrichCustomers] at hx
  by_cases h : cs = []
  · rw [if_pos h] at hx; exact ⟨x, hx, rfl⟩
  · rw [if_neg h] at hx
    obtain ⟨r, hr, hc⟩ := mem_leftMerge_iff.1 hx
    rcases hc with ⟨-, rfl⟩ | ⟨m, -, rfl⟩
    · exact ⟨x, hr, rfl⟩
    · exact ⟨r, hr, hg r m⟩

theorem mem_enrichPayments_proj {γ : Type} {ps : List PaymentRow}
    {rows : List EnrichedRow} {x : EnrichedRow} (hx : x ∈ enrichPayments ps rows)
    (g : EnrichedRow → γ)
    (hg : ∀ (r : EnrichedRow) (p : PaymentRowN),
      g { r with payment_type := p.payment_type, payment_installments := some p.payment_installments,
                 payment_value := p.payment_value } = g r) :
    ∃ r ∈ rows, g x = g r := by
  rw [enrichPayments] at hx
  by_cases h : ps = []
  · rw [if_pos h] at hx; exact ⟨x, hx, rfl⟩
  · rw [if_neg h] at hx
    obtain ⟨r, hr, hc⟩ := mem_leftMerge_iff.1 hx
    rcases hc with ⟨-, rfl⟩ | ⟨m, -, rfl⟩
    · exact ⟨x, hr, rfl⟩
    · exact ⟨r, hr, hg r m⟩

theorem mem_fillPaymentValue_proj {γ : Type} {ps : List PaymentRow}
    {rows : List EnrichedRow} {x : EnrichedRow} (hx : x ∈ fillPaymentValue ps rows)
    (g : EnrichedRow → γ)
    (hg : ∀ r v, g { r with payment_value := v } = g r) :
    ∃ r ∈ rows, g x = g r := by
  rw [fillPaymentValue] at hx
  by_cases h : ps = []
  · rw [if_pos h] at hx
    obtain ⟨r, hr, rfl⟩ := List.mem_map.1 hx
    exact ⟨r, hr, hg r _⟩
  · rw [if_neg h] at hx
    obtain ⟨r, hr, rfl⟩ := List.mem_map.1 hx
    exact ⟨r, hr, hg r _⟩

theorem mem_addMonths_proj {γ : Type} {lf : List LifecycleRow}
    {rows : List EnrichedRow} {x : EnrichedRow} (hx : x ∈ addMonths lf rows)
    (g : EnrichedRow → γ)
    (hgm : ∀ r v, g { r with month := v } = g r)
    (hgl : ∀ r v, g { r with lifecycle_month := v } = g r) :
    ∃ r ∈ rows, g x = g r := by
  rw [addMonths] at hx
  by_cases h : lf = []
  · rw [if_pos h] at hx
    obtain ⟨r1, hr1, rfl⟩ := List.mem_map.1 hx
    obtain ⟨r, hr, rfl⟩ := List.mem_map.1 hr1
    exact ⟨r, hr, ((hgl _ _).trans (hgm _ _))⟩
  · rw [if_neg h] at hx
    obtain ⟨r1, hr1, rfl⟩ := List.mem_map.1 hx
    obtain ⟨r, hr, rfl⟩ := List.mem_map.1 hr1
    exact ⟨r, hr, ((hgl _ _).trans (hgm _ _))⟩

theorem mem_addProcessingTime_proj {γ : Type} {rows : List EnrichedRow} {x : EnrichedRow}
    (hx : x ∈ addProcessingTime rows) (g : EnrichedRow → γ)
    (hg : ∀ r v, g { r with processing_time_days := v } = g r) :
    ∃ r ∈ rows, g x = g r := by
  rw [addProcessingTime] at hx
  obtain ⟨r, hr, rfl⟩ := List.mem_map.1 hx
  refine ⟨r, hr, ?_⟩
  split
  · exact hg r _
  · rfl

/-! ## Behaviour of the format loop of `to_datetime_safe` -/

theorem tryFormats_skip {φ σ τ : Type} (parse : φ → σ → Option τ) (generic : σ → Option τ)
    (series : List σ) (fs₁ rest : List φ)
    (hfail : ∀ f ∈ fs₁, ∀ s ∈ series, parse f s = none) :
    tryFormats parse generic series (fs₁ ++ rest) = tryFormats parse generic series rest := by
  induction fs₁ with
  | nil => rfl
  | cons f fs ih =>
    simp only [List.cons_append, tryFormats]
    have hnone : (series.map (parse f)).any Option.isSome = false := by
      rw [List.any_eq_false]
      intro x hx
      obtain ⟨s, hs, rfl⟩ := List.mem_map.1 hx
      rw [hfail f (List.mem_cons_self f fs) s hs]
      simp
    rw [hnone]
    simp only [Bool.false_eq_true, if_false]
    exact ih fun g hg s hs => hfail g (List.mem_cons_of_mem f hg) s hs

theorem tryFormats_hit {φ σ τ : Type} (parse : φ → σ → Option τ) (generic : σ → Option τ)
    (series : List σ) (fmt : φ) (rest : List φ)
    (hsome : ∃ s ∈ series, (parse fmt s).isSome) :
    tryFormats parse generic series (fmt :: rest) = series.map (parse fmt) := by
  simp only [tryFormats]
  obtain ⟨s, hs, hps⟩ := hsome
  have hany : (series.map (parse fmt)).any Option.isSome = true :=
    List.any_eq_true.2 ⟨parse fmt s, List.mem_map.2 ⟨s, hs, rfl⟩, hps⟩
  rw [hany]
  simp

theorem tryFormats_all_fail {φ σ τ : Type} (parse : φ → σ → Option τ) (generic : σ → Option τ)
    (series : List σ) (formats : List φ)
    (hfail : ∀ f ∈ formats, ∀ s ∈ series, parse f s = none) :
    tryFormats parse generic series formats = series.map generic := by
  have := tryFormats_skip parse generic series formats [] hfail
  rw [List.append_nil] at this
  exact this

/-! ## Per-row facts feeding the derived-column claims -/

theorem addProcessingTime_spec {rows : List EnrichedRow} {x : EnrichedRow}
    (hx : x ∈ addProcessingTime rows) :
    ∃ y ∈ rows,
      x.order_delivered_customer_date = y.order_delivered_customer_date ∧
      x.order_purchase_timestamp = y.order_purchase_timestamp ∧
      (∀ d p : Int, y.order_delivered_customer_date = some d →
        y.order_purchase_timestamp = some p →
        x.processing_time_days = some (((d : ℚ) - (p : ℚ)) / 86400)) ∧
      ((y.order_delivered_customer_date = none ∨ y.order_purchase_timestamp = none) →
        x.processing_time_days = y.processing_time_days) := by
  rw [addProcessingTime] at hx
  obtain ⟨y, hy, rfl⟩ := List.mem_map.1 hx
  refine ⟨y, hy, ?_⟩
  rcases hd : y.order_delivered_customer_date with - | d <;>
    rcases hp : y.order_purchase_timestamp with - | p <;>
    simp [hd, hp]

theorem processing_none_pre (orders : List OrderRow) (lf : List LifecycleRow)
    (cs : List CustomerRow) (ps : List PaymentRow) :
    ∀ y ∈ addMonths lf (fillPaymentValue ps (enrichPayments ps (enrichCustomers cs
        (enrichLifecycle lf (orders.map baseEnriched))))),
      y.processing_time_days = none := by
  intro y hy
  obtain ⟨y1, hy1, e1⟩ := mem_addMonths_proj hy (fun r => r.processing_time_days)
    (fun _ _ => rfl) (fun _ _ => rfl)
  obtain ⟨y2, hy2, e2⟩ := mem_fillPaymentValue_proj hy1 (fun r => r.processing_time_days)
    (fun _ _ => rfl)
  obtain ⟨y3, hy3, e3⟩ := mem_enrichPayments_proj hy2 (fun r => r.processing_time_days)
    (fun _ _ => rfl)
  obtain ⟨y4, hy4, e4⟩ := mem_enrichCustomers_proj hy3 (fun r => r.processing_time_days)
    (fun _ _ => rfl)
  obtain ⟨y5, hy5, e5⟩ := mem_enrichLifecycle_proj hy4 (fun r => r.processing_time_days)
    (fun _ _ => rfl)
  obtain ⟨o, _, rfl⟩ := List.mem_map.1 hy5
  rw [e1, e2, e3, e4, e5]
  rfl

theorem addMonths_spec {lf : List LifecycleRow} {rows : List EnrichedRow} {x : EnrichedRow}
    (hx : x ∈ addMonths lf rows) :
    ∃ y ∈ rows,
      x.order_purchase_timestamp = y.order_purchase_timestamp ∧
      x.event_timestamp = y.event_timestamp ∧
      x.month = some (periodStr y.order_purchase_timestamp) ∧
      x.lifecycle_month = (if lf = [] then none else some (periodStr y.event_timestamp)) := by
  rw [addMonths] at hx
  by_cases h : lf = []
  · rw [if_pos h] at hx
    obtain ⟨y1, hy1, rfl⟩ := List.mem_map.1 hx
    obtain ⟨y, hy, rfl⟩ := List.mem_map.1 hy1
    exact ⟨y, hy, rfl, rfl, rfl, by rw [if_pos h]⟩
  · rw [if_neg h] at hx
    obtain ⟨y1, hy1, rfl⟩ := List.mem_map.1 hx
    obtain ⟨y, hy, rfl⟩ := List.mem_map.1 hy1
    exact ⟨y, hy, rfl, rfl, rfl, by rw [if_neg h]⟩

theorem payment_value_none_pre (orders : List OrderRow) (lf : List LifecycleRow)
    (cs : List CustomerRow) :
    ∀ w ∈ enrichCustomers cs (enrichLifecycle lf (orders.map baseEnriched)),
      w.payment_value = none := by
  intro w hw
  obtain ⟨w1, hw1, e1⟩ := mem_enrichCustomers_proj hw (fun r => r.payment_value)
    (fun _ _ => rfl)
  obtain ⟨w2, hw2, e2⟩ := mem_enrichLifecycle_proj hw1 (fun r => r.payment_value)
    (fun _ _ => rfl)
  obtain ⟨o, -, rfl⟩ := List.mem_map.1 hw2
  rw [e1, e2]
  rfl

/-! ## The claims -/

/-- **C1** — for every combination of Order, LifecycleEvent, Customer and
Payment tables (each possibly empty), the EnrichedOrder table produced by
the enrichment join has exactly as many rows as the input Order table:
all three joins are left merges against tables de-duplicated to at most
one row per key. -/
theorem C1_enrich_row_count (orders : List OrderRow) (lifecycle : List LifecycleRow)
    (customers : List CustomerRow) (payments : List PaymentRow) :
    (enrich orders lifecycle customers payments).length = orders.length := by
  rw [enrich, addProcessingTime_length, addMonths_length, fillPaymentValue_length,
    enrichPayments_length, enrichCustomers_length, enrichLifecycle_length, List.length_map]

/-- **C5** — the Timestamp Normalizer: an empty input column yields an
empty output; the first format under which at least one value parses
wins, values failing under it become missing and are never retried
under later formats; when no candidate format parses any value, the
column is parsed by the unconstrained generic parse. -/
theorem C5_to_datetime_safe_spec {φ σ τ : Type} (parse : φ → σ → Option τ)
    (generic : σ → Option τ) :
    (∀ formats : List φ, to_datetime_safe parse generic [] formats = [])
    ∧ (∀ (series : List σ) (fs₁ : List φ) (fmt : φ) (fs₂ : List φ),
        (∀ f ∈ fs₁, ∀ s ∈ series, parse f s = none) →
        (∃ s ∈ series, (parse fmt s).isSome) →
        to_datetime_safe parse generic series (fs₁ ++ fmt :: fs₂) = series.map (parse fmt))
    ∧ (∀ (series : List σ) (formats : List φ),
        (∀ f ∈ formats, ∀ s ∈ series, parse f s = none) →
        to_datetime_safe parse generic series formats = series.map generic) := by
  refine ⟨fun formats => rfl, ?_, ?_⟩
  · intro series fs₁ fmt fs₂ hfail hsome
    have hne : series ≠ [] := by
      rcases hsome with ⟨s, hs, -⟩
      exact List.ne_nil_of_mem hs
    rw [to_datetime_safe, if_neg (by simpa using hne),
      tryFormats_skip parse generic series fs₁ (fmt :: fs₂) hfail,
      tryFormats_hit parse generic series fmt fs₂ hsome]
  · intro series formats hfail
    by_cases hs : series = []
    · subst hs
      rw [to_datetime_safe]
      simp
    · rw [to_datetime_safe, if_neg (by simpa using hs),
        tryFormats_all_fail parse generic series formats hfail]

/-- Witness for **C5**: with a concrete parser, the column `[3, 4]` and
format list `[1, 3, 9]`, format `1` parses nothing, format `3` parses
the first value, so the result is format `3`'s column: `4` becomes
missing, not retried under format `9`. -/
theorem C5_to_datetime_safe_spec_witness :
    to_datetime_safe (fun f s : Nat => if f = s then some s else none)
      (fun s => some (s + 1)) [3, 4] ([1] ++ 3 :: [9]) = [some 3, none] :=
  ((C5_to_datetime_safe_spec (fun f s : Nat => if f = s then some s else none)
    (fun s => some (s + 1))).2.1 [3, 4] [1] 3 [9] (by decide)
    ⟨3, by decide, by decide⟩).trans (by decide)

/-- **C6** — in every enriched row, `processing_time_days` is present if
and only if both the delivery-to-customer timestamp and the purchase
timestamp are present; where present it equals the elapsed seconds
between the two divided by 86400 (`24 * 3600`), with negative durations
passed through unmodified (the formula applies with no clamping). -/
theorem C6_processing_time (orders : List OrderRow) (lf : List LifecycleRow)
    (cs : List CustomerRow) (ps : List PaymentRow) :
    ∀ r ∈ enrich orders lf cs ps,
      (r.processing_time_days.isSome ↔
        (r.order_delivered_customer_date.isSome ∧ r.order_purchase_timestamp.isSome))
      ∧ (∀ d p : Int, r.order_delivered_customer_date = some d →
          r.order_purchase_timestamp = some p →
          r.processing_time_days = some (((d : ℚ) - (p : ℚ)) / 86400)) := by
  intro r hr
  rw [enrich] at hr
  obtain ⟨y, hy, hdel, hpur, hform, hmiss⟩ := addProcessingTime_spec hr
  have hnone : y.processing_time_days = none := processing_none_pre orders lf cs ps y hy
  constructor
  · rcases hd : y.order_delivered_customer_date with - | d <;>
      rcases hp : y.order_purchase_timestamp with - | p
    · rw [hdel, hpur, hd, hp, hmiss (Or.inl hd), hnone]
      simp
    · rw [hdel, hpur, hd, hp, hmiss (Or.inl hd), hnone]
      simp
    · rw [hdel, hpur, hd, hp, hmiss (Or.inr hp), hnone]
      simp
    · rw [hdel, hpur, hd, hp, hform d p hd hp]
      simp
  · intro d p hdd hpp
    exact hform d p (hdel ▸ hdd) (hpur ▸ hpp)

/-- The enriched row of the C6 witness scenario: a delivered order whose
delivery (epoch second 43200) precedes its purchase (86400). -/
def C6row : EnrichedRow :=
  { order_id := "A", customer_id := "c1", order_status := "delivered"
    order_purchase_timestamp := some 86400, order_approved_at := none
    order_delivered_carrier_date := none, order_delivered_customer_date := some 43200
    order_estimated_delivery_date := none, payment_value := some 100
    month := some "1970-01"
    processing_time_days := some ((((43200 : Int) : ℚ) - ((86400 : Int) : ℚ)) / 86400) }

/-- Witness for **C6**: in the concrete scenario the processing time is
present and equals the (negative) elapsed-seconds quotient, passed
through unmodified. -/
theorem C6_processing_time_witness :
    C6row ∈ enrich [⟨"A", "c1", "delivered", some 86400, none, none, some 43200, none⟩] [] [] [] ∧
      C6row.processing_time_days = some ((((43200 : Int) : ℚ) - ((86400 : Int) : ℚ)) / 86400) :=
  ⟨List.mem_singleton.2 rfl,
    (C6_processing_time [⟨"A", "c1", "delivered", some 86400, none, none,
      some 43200, none⟩] [] [] [] C6row (List.mem_singleton.2 rfl)).2 43200 86400 rfl rfl⟩

/-- Counterexample to **C2** as stated: order `"A"` has an event at
timestamp `1` with event_type `"a"` and an event with missing timestamp
and event_type `"b"`.  The chronologically last non-missing timestamp is
`1`, whose associated event_type is `"a"`; but the code sorts missing
timestamps last and takes the last non-missing event_type of the sorted
group, so the aggregate carries `"b"` — the event_type of a row whose
timestamp is missing.  (The maximum-timestamp part, `some 1`, agrees.) -/
theorem C2_counterexample :
    lifecycleAgg [⟨"A", some 1, some "a"⟩, ⟨"A", none, some "b"⟩]
      = [⟨"A", some 1, some "b"⟩]
    ∧ (some "b" : Option String) ≠ some "a" := by
  constructor
  · have h12 : lifecycleLe ⟨"A", some 1, some "a"⟩ ⟨"A", none, some "b"⟩ :=
      Or.inr ⟨rfl, trivial⟩
    have hsort : List.insertionSort lifecycleLe
        [⟨"A", some 1, some "a"⟩, ⟨"A", none, some "b"⟩]
        = [⟨"A", some 1, some "a"⟩, ⟨"A", none, some "b"⟩] := by
      simp only [List.insertionSort, List.orderedInsert]
      rw [if_pos h12]
    rw [lifecycleAgg, hsort]
    rfl
  · simp

/-- **C2** (amended) — for every LifecycleEvent table and every order
identifier present in it, when every event of that order carries a
non-missing timestamp and a non-missing event_type, the aggregate row
for the order carries the maximum event_timestamp of the group and the
event_type of a row attaining it (the last such row in the stable
sorted order, so ties are broken towards the latest input row); in
general the code takes the last non-missing event_type after sorting
with missing timestamps placed last, which can disagree with the claim
only on rows with missing fields (see the counterexample). -/
theorem C2_lifecycle_agg (lf : List LifecycleRow) (o : String)
    (hne : lf.filter (fun e => e.order_id == o) ≠ [])
    (hsome : ∀ e ∈ lf.filter (fun e => e.order_id == o),
      e.event_timestamp.isSome ∧ e.event_type.isSome) :
    ∃ m ∈ lf.filter (fun e => e.order_id == o),
      (∀ e ∈ lf.filter (fun e => e.order_id == o),
        tsLe e.event_timestamp m.event_timestamp)
      ∧ (lifecycleAgg lf).find? (fun a => a.order_id == o)
          = some { order_id := o, event_timestamp := m.event_timestamp,
                   event_type := m.event_type } := by
  have hperm : List.Perm
      ((List.insertionSort lifecycleLe lf).filter (fun e => e.order_id == o))
      (lf.filter (fun e => e.order_id == o)) :=
    (List.perm_insertionSort lifecycleLe lf).filter _
  have hgrpne : (List.insertionSort lifecycleLe lf).filter (fun e => e.order_id == o) ≠ [] := by
    intro h0
    apply hne
    have hlen := hperm.length_eq
    rw [h0] at hlen
    exact List.eq_nil_of_length_eq_zero hlen.symm
  obtain ⟨m, hmLast⟩ : ∃ m, ((List.insertionSort lifecycleLe lf).filter
      (fun e => e.order_id == o)).getLast? = some m := by
    cases hgl : ((List.insertionSort lifecycleLe lf).filter
        (fun e => e.order_id == o)).getLast? with
    | none => exact absurd (List.getLast?_eq_none_iff.1 hgl) hgrpne
    | some m => exact ⟨m, rfl⟩
  have hmmem : m ∈ (List.insertionSort lifecycleLe lf).filter (fun e => e.order_id == o) :=
    List.mem_of_getLast?_eq_some hmLast
  have hpair : ((List.insertionSort lifecycleLe lf).filter
      (fun e => e.order_id == o)).Pairwise lifecycleLe :=
    (List.sorted_insertionSort lifecycleLe lf).filter _
  have hgrpo : ∀ e ∈ (List.insertionSort lifecycleLe lf).filter (fun e => e.order_id == o),
      e.order_id = o := fun e he => beq_iff_eq.1 (List.mem_filter.1 he).2
  have hts : ∀ e ∈ (List.insertionSort lifecycleLe lf).filter (fun e => e.order_id == o),
      tsLe e.event_timestamp m.event_timestamp := by
    intro e he
    rcases pairwise_rel_getLast? hpair hmLast e he with rfl | hrel
    · exact tsLe_refl _
    · rcases hrel with hlt | hrel2
      · rw [hgrpo e he, hgrpo m hmmem] at hlt
        exact absurd hlt (lt_irrefl o)
      · exact hrel2.2
  have hmemG : m ∈ lf.filter (fun e => e.order_id == o) := hperm.subset hmmem
  refine ⟨m, hmemG, fun e he => hts e (hperm.symm.subset he), ?_⟩
  have hex : ∃ e ∈ lf, e.order_id = o := by
    obtain ⟨e, he⟩ := List.exists_mem_of_ne_nil _ hne
    exact ⟨e, (List.mem_filter.1 he).1, beq_iff_eq.1 (List.mem_filter.1 he).2⟩
  rw [lifecycleAgg_find? lf o hex]
  obtain ⟨tm, htm⟩ := Option.isSome_iff_exists.1 (hsome m hmemG).1
  have hmax : tsMax (((List.insertionSort lifecycleLe lf).filter
      (fun e => e.order_id == o)).map (·.event_timestamp)) = m.event_timestamp := by
    rw [tsMax, htm]
    haveI : Std.Antisymm ((· : Int) ≤ ·) := ⟨fun h1 h2 => Int.le_antisymm h1 h2⟩
    apply (List.max?_eq_some_iff Int.le_refl (fun a b => max_choice a b)
      (fun a b c => max_le_iff)).2
    constructor
    · exact List.mem_filterMap.2 ⟨some tm, List.mem_map.2 ⟨m, hmmem, htm⟩, rfl⟩
    · intro v hv
      obtain ⟨x, hx, hxv⟩ := List.mem_filterMap.1 hv
      obtain ⟨e, he, hex'⟩ := List.mem_map.1 hx
      have hx2 : x = some v := hxv
      have h2 := hts e he
      rw [hex', hx2, htm] at h2
      exact h2
  have hall : ∀ x ∈ ((List.insertionSort lifecycleLe lf).filter
      (fun e => e.order_id == o)).map (·.event_type), x.isSome := by
    intro x hx
    obtain ⟨e, he, rfl⟩ := List.mem_map.1 hx
    exact (hsome e (hperm.subset he)).2
  have hty : lastSome (((List.insertionSort lifecycleLe lf).filter
      (fun e => e.order_id == o)).map (·.event_type)) = m.event_type := by
    rw [lastSome_of_all_isSome _ hall, List.getLast?_map, hmLast]
    rfl
  rw [hmax, hty]

/-- Witness for the amended **C2**: the end-to-end scenario of the
claim — order `"A"` with events at timestamps 1 (`"order_created"`) and
2 (`"order_shipped"`); the aggregate carries timestamp 2 and
`"order_shipped"`. -/
theorem C2_lifecycle_agg_witness :
    ∃ m ∈ [(⟨"A", some 1, some "order_created"⟩ : LifecycleRow),
        ⟨"A", some 2, some "order_shipped"⟩].filter (fun e => e.order_id == "A"),
      (∀ e ∈ [(⟨"A", some 1, some "order_created"⟩ : LifecycleRow),
          ⟨"A", some 2, some "order_shipped"⟩].filter (fun e => e.order_id == "A"),
        tsLe e.event_timestamp m.event_timestamp)
      ∧ (lifecycleAgg [⟨"A", some 1, some "order_created"⟩,
            ⟨"A", some 2, some "order_shipped"⟩]).find? (fun a => a.order_id == "A")
          = some { order_id := "A", event_timestamp := m.event_timestamp,
                   event_type := m.event_type } :=
  C2_lifecycle_agg [⟨"A", some 1, some "order_created"⟩, ⟨"A", some 2, some "order_shipped"⟩]
    "A" (by decide) (by decide)

/-- **C10** — `payment_installments` is coerced to numeric before the
one-row-per-order selection, with every unparseable value replaced by
`0`; consequently, for an order whose payment rows include one
unparseable-installments row while all its other rows have positive
numeric installment counts, the unparseable row is treated as
installments `0` and wins the smallest-installment selection. -/
theorem C10_installments_coercion (o : String) (pre post : List PaymentRow)
    (rz : PaymentRow) (ho : rz.order_id = o) (hnone : rz.payment_installments = none)
    (hpre : ∀ p ∈ pre, p.order_id = o → ∃ q, p.payment_installments = some q ∧ 0 < q)
    (hpost : ∀ p ∈ post, p.order_id = o → ∃ q, p.payment_installments = some q ∧ 0 < q) :
    argminFirst instVal ((pre ++ rz :: post).filter (fun p => p.order_id == o)) = some rz
    ∧ (paymentsSmall (pre ++ rz :: post)).filter (fun m => m.order_id == o)
        = [{ order_id := o, payment_type := rz.payment_type, payment_installments := 0,
             payment_value := rz.payment_value }] := by
  have hfilter : (pre ++ rz :: post).filter (fun p => p.order_id == o)
      = pre.filter (fun p => p.order_id == o) ++
          rz :: post.filter (fun p => p.order_id == o) := by
    rw [List.filter_append, List.filter_cons_of_pos (by simp [ho])]
  have hlt : ∀ (l : List PaymentRow),
      (∀ p ∈ l, p.order_id = o → ∃ q, p.payment_installments = some q ∧ 0 < q) →
      ∀ b ∈ l.filter (fun p => p.order_id == o), instVal rz < instVal b := by
    intro l hl b hb
    obtain ⟨q, hq, hqpos⟩ :=
      hl b (List.mem_filter.1 hb).1 (beq_iff_eq.1 (List.mem_filter.1 hb).2)
    show (rz.payment_installments.getD 0) < (b.payment_installments.getD 0)
    rw [hnone, hq]
    simpa using hqpos
  have hargmin : argminFirst instVal
      ((pre ++ rz :: post).filter (fun p => p.order_id == o)) = some rz := by
    rw [hfilter]
    exact argminFirst_append_cons instVal rz _ (hlt pre hpre) (hlt post hpost)
  refine ⟨hargmin, ?_⟩
  rw [paymentsSmall_filter_eq (pre ++ rz :: post) o hargmin]
  have hnz : normPayment rz =
      { order_id := o, payment_type := rz.payment_type, payment_installments := 0,
        payment_value := rz.payment_value } := by
    rw [normPayment, ho, hnone]
    rfl
  rw [hnz]

/-- Witness for **C10**: order `"A"` has a 3-installment row, then a row
whose installment cell is unparseable, then an unrelated order-`"B"`
row; the unparseable row wins the selection with installments `0`. -/
theorem C10_installments_coercion_witness :
    argminFirst instVal
        (([(⟨"A", some "credit", some 3, some 30⟩ : PaymentRow)] ++
            (⟨"A", some "boleto", none, some 7⟩ : PaymentRow) ::
            [(⟨"B", some "card", some 2, some 20⟩ : PaymentRow)]).filter
          (fun p => p.order_id == "A"))
      = some (⟨"A", some "boleto", none, some 7⟩ : PaymentRow)
    ∧ (paymentsSmall ([(⟨"A", some "credit", some 3, some 30⟩ : PaymentRow)] ++
          (⟨"A", some "boleto", none, some 7⟩ : PaymentRow) ::
          [(⟨"B", some "card", some 2, some 20⟩ : PaymentRow)])).filter
          (fun m => m.order_id == "A")
        = [{ order_id := "A", payment_type := some "boleto", payment_installments := 0,
             payment_value := some 7 }] :=
  C10_installments_coercion "A" [⟨"A", some "credit", some 3, some 30⟩]
    [⟨"B", some "card", some 2, some 20⟩] ⟨"A", some "boleto", none, some 7⟩ rfl rfl
    (by decide) (by decide)

/-- **C4** — after enrichment every row has a present (numeric)
`payment_value`; an order with no payment row (including when the
Payment table is empty, in which case the whole column is set to the
default) receives exactly `100.0`, and so does an order none of whose
payment rows carries a resolvable numeric `payment_value`. -/
theorem C4_payment_value (orders : List OrderRow) (lf : List LifecycleRow)
    (cs : List CustomerRow) (ps : List PaymentRow) :
    ∀ r ∈ enrich orders lf cs ps,
      r.payment_value.isSome
      ∧ (ps.filter (fun p => p.order_id == r.order_id) = [] → r.payment_value = some 100)
      ∧ ((∀ p ∈ ps, p.order_id = r.order_id → p.payment_value = none) →
          r.payment_value = some 100) := by
  intro r hr
  rw [enrich] at hr
  obtain ⟨y, hy, hgy⟩ := mem_addProcessingTime_proj hr
    (fun r => (r.payment_value, r.order_id)) (fun _ _ => rfl)
  obtain ⟨y1, hy1, hgy1⟩ := mem_addMonths_proj hy
    (fun r => (r.payment_value, r.order_id)) (fun _ _ => rfl) (fun _ _ => rfl)
  have hval : r.payment_value = y1.payment_value :=
    (congrArg Prod.fst hgy).trans (congrArg Prod.fst hgy1)
  have hid : r.order_id = y1.order_id :=
    (congrArg Prod.snd hgy).trans (congrArg Prod.snd hgy1)
  rw [fillPaymentValue] at hy1
  by_cases hps : ps = []
  · rw [if_pos hps] at hy1
    obtain ⟨z, hz, rfl⟩ := List.mem_map.1 hy1
    have h100 : r.payment_value = some 100 := hval.trans rfl
    exact ⟨by rw [h100]; rfl, fun _ => h100, fun _ => h100⟩
  · rw [if_neg hps] at hy1
    obtain ⟨z, hz, rfl⟩ := List.mem_map.1 hy1
    have hval' : r.payment_value = some (z.payment_value.getD 100) := hval.trans rfl
    have hid' : r.order_id = z.order_id := hid.trans rfl
    rw [enrichPayments, if_neg hps] at hz
    obtain ⟨w, hw, hcase⟩ := mem_leftMerge_iff.1 hz
    rcases hcase with ⟨hempty, rfl⟩ | ⟨mrow, hmrow, rfl⟩
    · have hwnone : z.payment_value = none := payment_value_none_pre orders lf cs z hw
      have h100 : r.payment_value = some 100 := by rw [hval', hwnone]; rfl
      exact ⟨by rw [h100]; rfl, fun _ => h100, fun _ => h100⟩
    · have hmm := List.mem_filter.1 hmrow
      obtain ⟨p0, hp0, hnorm⟩ := mem_paymentsSmall hmm.1
      have hordm : w.order_id = mrow.order_id := beq_iff_eq.1 hmm.2
      have hp0ord : p0.order_id = r.order_id := by
        have e1 : p0.order_id = mrow.order_id := by rw [← hnorm]; rfl
        rw [e1, ← hordm, hid']
      have hvalmatch : r.payment_value = some (mrow.payment_value.getD 100) :=
        hval'.trans rfl
      refine ⟨by rw [hvalmatch]; rfl, ?_, ?_⟩
      · intro hfe
        exfalso
        have hmem2 : p0 ∈ ps.filter (fun p => p.order_id == r.order_id) :=
          List.mem_filter.2 ⟨hp0, beq_iff_eq.2 hp0ord⟩
        rw [hfe] at hmem2
        exact absurd hmem2 (List.not_mem_nil _)
      · intro hall
        have hp0none : p0.payment_value = none := hall p0 hp0 hp0ord
        have hmnone : mrow.payment_value = none := by rw [← hnorm]; exact hp0none
        rw [hvalmatch, hmnone]
        rfl

/-- The enriched row of the C4 witness scenario: order `"A"` has no
payment row (payments only cover `"B"`), so its value defaults. -/
def C4row : EnrichedRow :=
  { order_id := "A", customer_id := "c", order_status := "s"
    order_purchase_timestamp := none, order_approved_at := none
    order_delivered_carrier_date := none, order_delivered_customer_date := none
    order_estimated_delivery_date := none, payment_value := some 100
    month := some "NaT", lifecycle_month := none }

/-- Witness for **C4**: the concrete order with no payment row gets
`payment_value = 100.0`. -/
theorem C4_payment_value_witness :
    C4row ∈ enrich [⟨"A", "c", "s", none, none, none, none, none⟩] [] []
        [⟨"B", some "card", some 1, some 5⟩] ∧
      C4row.payment_value = some 100 :=
  have hm : C4row ∈ enrich [⟨"A", "c", "s", none, none, none, none, none⟩] [] []
      [⟨"B", some "card", some 1, some 5⟩] := List.mem_singleton.2 rfl
  ⟨hm,
    (C4_payment_value [⟨"A", "c", "s", none, none, none, none, none⟩] [] []
      [⟨"B", some "card", some 1, some 5⟩] C4row hm).2.1 rfl⟩

/-- Counterexample to **C7** as stated: an order whose purchase
timestamp is missing, with a non-empty lifecycle table that has no event
for it.  The claim says both derived month values should be missing; the
code stringifies the missing timestamps (`.astype(str)` maps `NaT` to
the literal string `"NaT"`), so `month` and `lifecycle_month` are the
present string `"NaT"`, not a missing value. -/
theorem C7_counterexample :
    (enrich [⟨"A", "c", "s", none, none, none, none, none⟩]
        [⟨"B", some 0, some "x"⟩] [] []).map
        (fun r => (r.order_purchase_timestamp, r.month, r.event_timestamp, r.lifecycle_month))
      = [(none, some "NaT", none, some "NaT")]
    ∧ (some "NaT" : Option String) ≠ none := ⟨rfl, by decide⟩

/-- **C7** (amended) — in every enriched row, `month` is the
`to_period` display string of the purchase timestamp: the year-month
string where the timestamp is present, and the literal string `"NaT"`
(a present value, not a missing one) where the timestamp is missing.
`lifecycle_month` is missing when the lifecycle table is empty (the
column check fails and the column is set to missing); otherwise it is
the display string of the joined `event_timestamp`, again `"NaT"` when
that timestamp is missing. -/
theorem C7_month_columns (orders : List OrderRow) (lf : List LifecycleRow)
    (cs : List CustomerRow) (ps : List PaymentRow) :
    ∀ r ∈ enrich orders lf cs ps,
      r.month = some (periodStr r.order_purchase_timestamp)
      ∧ (∀ t : Int, r.order_purchase_timestamp = some t → r.month = some (yearMonthStr t))
      ∧ (r.order_purchase_timestamp = none → r.month = some "NaT")
      ∧ (lf = [] → r.lifecycle_month = none)
      ∧ (lf ≠ [] → r.lifecycle_month = some (periodStr r.event_timestamp))
      ∧ (lf ≠ [] → r.event_timestamp = none → r.lifecycle_month = some "NaT") := by
  intro r hr
  rw [enrich] at hr
  obtain ⟨y, hy, hgy⟩ := mem_addProcessingTime_proj hr
    (fun r => (r.month, r.lifecycle_month, r.order_purchase_timestamp, r.event_timestamp))
    (fun _ _ => rfl)
  obtain ⟨z, hz, hpur, hev, hmon, hlm⟩ := addMonths_spec hy
  have h1 : r.month = y.month := congrArg (fun q => q.1) hgy
  have h2 : r.lifecycle_month = y.lifecycle_month := congrArg (fun q => q.2.1) hgy
  have h3 : r.order_purchase_timestamp = y.order_purchase_timestamp :=
    congrArg (fun q => q.2.2.1) hgy
  have h4 : r.event_timestamp = y.event_timestamp := congrArg (fun q => q.2.2.2) hgy
  refine ⟨?_, ?_, ?_, ?_, ?_, ?_⟩
  · rw [h1, h3, hmon, hpur]
  · intro t ht
    rw [h1, hmon, ← hpur, ← h3, ht]
    rfl
  · intro ht
    rw [h1, hmon, ← hpur, ← h3, ht]
    rfl
  · intro hlf
    rw [h2, hlm, if_pos hlf]
  · intro hlf
    rw [h2, hlm, if_neg hlf, ← hev, ← h4]
  · intro hlf het
    rw [h2, hlm, if_neg hlf, ← hev, ← h4, het]
    rfl

/-- The enriched row of the C7 witness scenario. -/
def C7row : EnrichedRow :=
  { order_id := "A", customer_id := "c", order_status := "s"
    order_purchase_timestamp := none, order_approved_at := none
    order_delivered_carrier_date := none, order_delivered_customer_date := none
    order_estimated_delivery_date := none, payment_value := some 100
    month := some "NaT", lifecycle_month := some "NaT" }

/-- Witness for the amended **C7**: the concrete row with missing
purchase and event timestamps carries the display string `"NaT"` in both
derived month columns. -/
theorem C7_month_columns_witness :
    C7row.order_purchase_timestamp = none ∧ C7row.month = some "NaT" ∧
      C7row.lifecycle_month = some "NaT" :=
  have hm : C7row ∈ enrich [⟨"A", "c", "s", none, none, none, none, none⟩]
      [⟨"B", some 0, some "x"⟩] [] [] := List.mem_singleton.2 rfl
  ⟨rfl,
    (C7_month_columns [⟨"A", "c", "s", none, none, none, none, none⟩]
      [⟨"B", some 0, some "x"⟩] [] [] C7row hm).2.2.1 rfl,
    (C7_month_columns [⟨"A", "c", "s", none, none, none, none, none⟩]
      [⟨"B", some 0, some "x"⟩] [] [] C7row hm).2.2.2.2.2 (List.cons_ne_nil _ _) rfl⟩

/-- **C8** — the Table Loader returns a table for every source outcome:
when the file is missing (`FileNotFoundError`) or cannot be parsed (any
other exception), it returns the empty table, which has zero rows, and
no error propagates to the caller. -/
theorem C8_safe_read_csv_total {α : Type} (err : ReadError) :
    (safe_read_csv (Except.error err) : Table α) = Table.empty ∧
      (safe_read_csv (Except.error err) : Table α).nrows = 0 := by
  cases err <;> exact ⟨rfl, rfl⟩

/-- **C9** — the Column Guarantor is idempotent: applying it twice with
identical table, column and default arguments yields the same table as
applying it once (and, being a total function of its inputs, it has no
error conditions). -/
theorem C9_ensure_col_idempotent {α : Type} (df : Table α) (col : String) (default : α) :
    ensure_col (ensure_col df col default) col default = ensure_col df col default := by
  by_cases h : col ∈ df.colNames
  · have hinner : ensure_col df col default = df := by rw [ensure_col, if_pos h]
    rw [hinner, ensure_col, if_pos h]
  · have hinner : ensure_col df col default =
        { df with cols := df.cols ++ [(col, List.replicate df.nrows default)] } := by
      rw [ensure_col, if_neg h]
    have h2 : col ∈ (Table.colNames
        { df with cols := df.cols ++ [(col, List.replicate df.nrows default)] }) := by
      simp [Table.colNames]
    rw [hinner, ensure_col, if_pos h2]

end App
